import Mathlib

/-!
Verification of the BeFake CLI (`BeFake/__main__.py`): the feed-download
pipeline (`feed` command), its path-template resolution via Python
`str.format`, the materialization helpers `_save_post_common` and
`_save_realmojis`, the `FEEDGETTER_MAP` dispatch, and the session manager
described by the design document.

Strings are modelled as lists of characters (`Str`); Python `str.format`
is embedded character by character, including `\x7b\x7b` / `\x7d\x7d`
escapes and the `KeyError` raised on a placeholder whose name is missing
from the keyword arguments.
-/

namespace BeFakeSpec

abbrev Str := List Char

/-- Errors raised by Python `str.format`: `KeyError` for a placeholder whose
name is not among the supplied keyword arguments, `ValueError` for stray or
unterminated braces. -/
inductive FmtErr where
  | unknownKey : Str → FmtErr
  | badBrace : FmtErr
deriving DecidableEq

/-- Scanner state for the `str.format` embedding: plain text, just after an
opening brace, just after a closing brace, or inside a field name. -/
inductive FmtMode where
  | text
  | sawOpen
  | sawClose
  | key : Str → FmtMode

/-- Character-level embedding of Python `str.format` restricted to plain
named fields: `\x7b\x7b` and `\x7d\x7d` are brace escapes, `\x7bname\x7d`
looks `name` up in `f` (missing name = `KeyError`), a stray `\x7d` or an
unterminated `\x7b` is a `ValueError`. The field-name accumulator is kept
reversed. -/
def fmtGo (f : Str → Option Str) : FmtMode → Str → Except FmtErr Str
  | .text, [] => .ok []
  | .text, c :: rest =>
    if c = '\x7b' then fmtGo f .sawOpen rest
    else if c = '\x7d' then fmtGo f .sawClose rest
    else (fun s => c :: s) <$> fmtGo f .text rest
  | .sawOpen, [] => .error .badBrace
  | .sawOpen, c :: rest =>
    if c = '\x7b' then (fun s => '\x7b' :: s) <$> fmtGo f .text rest
    else if c = '\x7d' then
      match f [] with
      | none => .error (.unknownKey [])
      | some v => (fun s => v ++ s) <$> fmtGo f .text rest
    else fmtGo f (.key [c]) rest
  | .sawClose, [] => .error .badBrace
  | .sawClose, c :: rest =>
    if c = '\x7d' then (fun s => '\x7d' :: s) <$> fmtGo f .text rest
    else .error .badBrace
  | .key _, [] => .error .badBrace
  | .key acc, c :: rest =>
    if c = '\x7d' then
      match f acc.reverse with
      | none => .error (.unknownKey acc.reverse)
      | some v => (fun s => v ++ s) <$> fmtGo f .text rest
    else if c = '\x7b' then .error .badBrace
    else fmtGo f (.key (c :: acc)) rest

/-- `pyFormat f tmpl` is Python `tmpl.format(**kwargs)` with `f` the lookup
into the keyword arguments. -/
def pyFormat (f : Str → Option Str) (tmpl : Str) : Except FmtErr Str :=
  fmtGo f .text tmpl

/-- `isPre n h`: `n` is a prefix of `h`. -/
def isPre : Str → Str → Bool
  | [], _ => true
  | _ :: _, [] => false
  | a :: as, b :: bs => a = b && isPre as bs

/-- `substrIn n h` is Python `n in h` (substring containment). -/
def substrIn (n : Str) : Str → Bool
  | [] => n.isEmpty
  | c :: rest => isPre n (c :: rest) || substrIn n rest

/-- Template tokens: literal runs and `\x7bname\x7d` placeholders. -/
inductive Tok where
  | lit : Str → Tok
  | ph : Str → Tok
deriving DecidableEq

/-- Concrete text of a token list. -/
def render : List Tok → Str
  | [] => []
  | .lit l :: ts => l ++ render ts
  | .ph k :: ts => '\x7b' :: (k ++ '\x7d' :: render ts)

/-- No brace character occurs in `l`. -/
def braceFreeB (l : Str) : Bool :=
  l.all fun c => !(c = '\x7b' || c = '\x7d')

/-- Well-formed token list: literals and field names are brace-free. -/
def wfToks (ts : List Tok) : Bool :=
  ts.all fun t =>
    match t with
    | .lit l => braceFreeB l
    | .ph k => braceFreeB k

/-- Token-level reference formatter: substitute each placeholder, failing on
the first name `f` does not supply. -/
def formatToks (f : Str → Option Str) : List Tok → Except FmtErr Str
  | [] => .ok []
  | .lit l :: ts => (fun s => l ++ s) <$> formatToks f ts
  | .ph k :: ts =>
    match f k with
    | none => .error (.unknownKey k)
    | some v => (fun s => v ++ s) <$> formatToks f ts

theorem exceptMap_map {ε α β γ : Type} (g : β → γ) (h : α → β)
    (x : Except ε α) : g <$> (h <$> x) = (fun a => g (h a)) <$> x := by
  cases x <;> rfl

theorem braceFreeB_cons (c : Char) (l : Str) :
    braceFreeB (c :: l) = true ↔
      (¬ c = '\x7b' ∧ ¬ c = '\x7d') ∧ braceFreeB l = true := by
  simp [braceFreeB]

theorem fmtGo_key_spec (f : Str → Option Str) (k : Str)
    (hk : braceFreeB k = true) (acc rest : Str) :
    fmtGo f (.key acc) (k ++ '\x7d' :: rest) =
      match f (acc.reverse ++ k) with
      | none => .error (.unknownKey (acc.reverse ++ k))
      | some v => (fun s => v ++ s) <$> fmtGo f .text rest := by
  induction k generalizing acc with
  | nil => simp [fmtGo]
  | cons c k ih =>
    obtain ⟨⟨hc1, hc2⟩, hk⟩ := (braceFreeB_cons c k).mp hk
    have := ih hk (c :: acc)
    simp only [List.cons_append, fmtGo, if_neg hc2, if_neg hc1]
    simpa [List.reverse_cons, List.append_assoc] using this

theorem fmtGo_lit (f : Str → Option Str) (l : Str)
    (hl : braceFreeB l = true) (rest : Str) :
    fmtGo f .text (l ++ rest) = (fun s => l ++ s) <$> fmtGo f .text rest := by
  induction l with
  | nil =>
    cases h : fmtGo f .text rest <;> simp [Except.map, h]
  | cons c l ih =>
    obtain ⟨⟨hc1, hc2⟩, hl⟩ := (braceFreeB_cons c l).mp hl
    simp only [List.cons_append, fmtGo, if_neg hc1, if_neg hc2,
      List.append_eq, ih hl, exceptMap_map]

/-- Bridge: on a well-formed token list, the character-level `pyFormat`
agrees with the token-level `formatToks` (with arbitrary trailing text). -/
theorem fmtGo_render (f : Str → Option Str) (ts : List Tok)
    (hts : wfToks ts = true) (suffix : Str) :
    fmtGo f .text (render ts ++ suffix) =
      match formatToks f ts with
      | .error e => .error e
      | .ok s => (fun r => s ++ r) <$> fmtGo f .text suffix := by
  induction ts with
  | nil =>
    cases h : fmtGo f .text suffix <;> simp [render, formatToks, Except.map, h]
  | cons t ts ih =>
    simp only [wfToks, List.all_cons, Bool.and_eq_true] at hts
    obtain ⟨ht, hts⟩ := hts
    have ihs := ih hts
    cases t with
    | lit l =>
      simp only [render, List.append_assoc, fmtGo_lit f l ht, ihs, formatToks]
      cases formatToks f ts with
      | error e => simp [Except.map]
      | ok s =>
        cases h : fmtGo f .text suffix <;>
          simp [Except.map, h, List.append_assoc]
    | ph k =>
      have hopen : fmtGo f .text (render (.ph k :: ts) ++ suffix) =
          fmtGo f (.key []) ((k ++ '\x7d' :: render ts) ++ suffix) := by
        cases k with
        | nil => simp [render, fmtGo]
        | cons c k =>
          have ht2 : braceFreeB (c :: k) = true := ht
          obtain ⟨⟨hc1, hc2⟩, _⟩ := (braceFreeB_cons c k).mp ht2
          simp [render, fmtGo, if_neg hc1, if_neg hc2]
      rw [hopen]
      have : (k ++ '\x7d' :: render ts) ++ suffix =
          k ++ '\x7d' :: (render ts ++ suffix) := by simp
      rw [this, fmtGo_key_spec f k (by simpa [wfToks] using ht) [] _]
      simp only [List.reverse_nil, List.nil_append, formatToks]
      cases f k with
      | none => simp
      | some v =>
        simp only [ihs]
        cases formatToks f ts with
        | error e => simp [Except.map]
        | ok s =>
          cases h : fmtGo f .text suffix <;>
            simp [Except.map, h, List.append_assoc]

theorem pyFormat_render (f : Str → Option Str) (ts : List Tok)
    (hts : wfToks ts = true) :
    pyFormat f (render ts) = formatToks f ts := by
  have := fmtGo_render f ts hts []
  rw [List.append_nil] at this
  rw [pyFormat, this]
  cases formatToks f ts with
  | error e => rfl
  | ok s => simp [fmtGo, Except.map]

theorem formatToks_unknown (f : Str → Option Str) (ts : List Tok)
    (h : ∃ k, .ph k ∈ ts ∧ f k = none) :
    ∃ k2, formatToks f ts = .error (.unknownKey k2) ∧ f k2 = none := by
  induction ts with
  | nil => obtain ⟨k, hk, _⟩ := h; simp at hk
  | cons t ts ih =>
    obtain ⟨k, hk, hnone⟩ := h
    cases t with
    | lit l =>
      obtain ⟨k2, h2, h3⟩ := ih ⟨k, by simpa using hk, hnone⟩
      exact ⟨k2, by simp [formatToks, h2, Except.map], h3⟩
    | ph k0 =>
      cases hf : f k0 with
      | none => exact ⟨k0, by simp [formatToks, hf], hf⟩
      | some v =>
        have hkts : .ph k ∈ ts := by
          rcases List.mem_cons.mp hk with h | h
          · cases h; rw [hf] at hnone; cases hnone
          · exact h
        obtain ⟨k2, h2, h3⟩ := ih ⟨k, hkts, hnone⟩
        exact ⟨k2, by simp [formatToks, hf, h2, Except.map], h3⟩

/-- First-pass substitution as performed by the code: every placeholder other
than `date` is replaced by its field value; `date` is kept as a placeholder
(the code passes the literal text `\x7bdate\x7d` for it). -/
def sub1 (dk : Str) (f : Str → Option Str) : Tok → Tok
  | .lit l => .lit l
  | .ph k =>
    if k = dk then .ph k
    else
      match f k with
      | some v => .lit v
      | none => .ph k

/-- Full substitution: `date` replaced by the fetched value `d`, every other
placeholder by its field value. -/
def subFull (dk : Str) (f : Str → Option Str) (d : Str) : Tok → Tok
  | .lit l => .lit l
  | .ph k =>
    if k = dk then .lit d
    else
      match f k with
      | some v => .lit v
      | none => .ph k

theorem formatToks_sub1 (dk : Str) (f : Str → Option Str) (ts : List Tok)
    (h : ∀ k, .ph k ∈ ts → k ≠ dk → (f k).isSome) :
    formatToks (fun k => if k = dk then some ('\x7b' :: (dk ++ ['\x7d'])) else f k) ts
      = .ok (render (ts.map (sub1 dk f))) := by
  induction ts with
  | nil => simp [formatToks, render]
  | cons t ts ih =>
    have hts : ∀ k, .ph k ∈ ts → k ≠ dk → (f k).isSome := by
      intro k hk hne
      exact h k (by simp [hk]) hne
    cases t with
    | lit l => simp [formatToks, ih hts, Except.map, render, sub1]
    | ph k =>
      by_cases hk : k = dk
      · subst hk
        simp [formatToks, ih hts, Except.map, render, sub1]
      · have := h k (by simp) hk
        cases hf : f k with
        | none => rw [hf] at this; cases this
        | some v =>
          simp [formatToks, hk, hf, ih hts, Except.map, render, sub1]

theorem formatToks_subAll (f2 : Str → Option Str) (ts : List Tok)
    (h : ∀ k, .ph k ∈ ts → (f2 k).isSome) :
    ∃ s, formatToks f2 ts = .ok s := by
  induction ts with
  | nil => exact ⟨[], rfl⟩
  | cons t ts ih =>
    have hts : ∀ k, .ph k ∈ ts → (f2 k).isSome := fun k hk =>
      h k (by simp [hk])
    obtain ⟨s, hs⟩ := ih hts
    cases t with
    | lit l => exact ⟨l ++ s, by simp [formatToks, hs, Except.map]⟩
    | ph k =>
      have := h k (by simp)
      cases hf : f2 k with
      | none => rw [hf] at this; cases this
      | some v => exact ⟨v ++ s, by simp [formatToks, hf, hs, Except.map]⟩

theorem isPre_self_append (n b : Str) : isPre n (n ++ b) = true := by
  induction n with
  | nil => rfl
  | cons c n ih => simp [isPre, ih]

theorem substrIn_self_append (n b : Str) : substrIn n (n ++ b) = true := by
  cases n with
  | nil => cases b <;> simp [substrIn, isPre]
  | cons c n =>
    have h := isPre_self_append (c :: n) b
    simp only [substrIn, Bool.or_eq_true]
    exact Or.inl (by simpa using h)

theorem substrIn_mid (n a b : Str) : substrIn n (a ++ (n ++ b)) = true := by
  induction a with
  | nil => simpa using substrIn_self_append n b
  | cons c a ih => simp [substrIn, ih]

theorem render_mem_decomp (t : Tok) (ts : List Tok) (h : t ∈ ts) :
    ∃ a b, render ts = a ++ (render [t] ++ b) := by
  induction ts with
  | nil => simp at h
  | cons t0 ts ih =>
    rcases List.mem_cons.mp h with h0 | h0
    · subst h0
      refine ⟨[], render ts, ?_⟩
      cases t <;> simp [render]
    · obtain ⟨a, b, hab⟩ := ih h0
      cases t0 with
      | lit l => exact ⟨l ++ a, b, by simp [render, hab, List.append_assoc]⟩
      | ph k =>
        exact ⟨'\x7b' :: (k ++ '\x7d' :: a), b, by
          simp [render, hab, List.append_assoc]⟩

/-- The `date` placeholder name. -/
def dateKey : Str := "date".data

/-- The literal text `\x7bdate\x7d`, as passed for the `date` keyword in the
first formatting pass and searched for by the `in` check. -/
def dateTag : Str := '\x7b' :: (dateKey ++ ['\x7d'])

/-- Output of resolving a realmoji path template: the resolved path (or a
formatting error) and the number of times the realmoji creation date was
fetched (each fetch is an extra network request). -/
structure ResolveOut where
  path : Except FmtErr Str
  dateCalls : Nat

/-- Lines 119-132 of `feed`: format the realmoji location with the nine
concrete fields plus `date` mapped to the literal `\x7bdate\x7d`; then, only
if `\x7bdate\x7d` occurs in the partially substituted result, fetch the
realmoji creation date `d` and format again with only `date` supplied. -/
def formatRealmojiLocation (tmpl : Str) (f : Str → Option Str) (d : Str) :
    ResolveOut :=
  match pyFormat (fun k => if k = dateKey then some dateTag else f k) tmpl with
  | .error e => ⟨.error e, 0⟩
  | .ok s1 =>
    if substrIn dateTag s1 then
      ⟨pyFormat (fun k => if k = dateKey then some d else none) s1, 1⟩
    else
      ⟨.ok s1, 0⟩

/-! ## Filesystem model and materializer -/

/-- A filesystem path, as a list of components. `BASE_DIR` is the root. -/
abbrev FilePath2 := List Str

/-- A filesystem node: a directory or a file with its contents. -/
inductive Node where
  | dir
  | file : Str → Node
deriving DecidableEq

/-- Filesystem state: each path maps to a node or to nothing. -/
abbrev FS := FilePath2 → Option Node

def emptyFS : FS := fun _ => none

def fsUpdate (fs : FS) (p : FilePath2) (n : Node) : FS :=
  fun q => if q = p then some n else fs q

/-- Failures during materialization. -/
inductive MatErr where
  | fmt : FmtErr → MatErr
  | mediaDownload
  | fileInTheWay
  | noneTemplate
deriving DecidableEq

/-- Observable network-relevant events: a download attempt for a named asset
to a destination, and the `bts_video.exists()` query. -/
inductive Ev where
  | download : Str → FilePath2 → Ev
  | existsCheck : Str → Ev
deriving DecidableEq

/-- Result of a materialization step: final filesystem, emitted events, and
the raised exception if any. -/
structure Outcome where
  fs : FS
  events : List Ev
  err : Option MatErr

/-- Sequencing that aborts on an exception (Python control flow): the second
step runs only when the first raised nothing. -/
def bindO (o : Outcome) (f : FS → Outcome) : Outcome :=
  match o.err with
  | some _ => o
  | none =>
    let o2 := f o.fs
    ⟨o2.fs, o.events ++ o2.events, o2.err⟩

/-- `Path.mkdir(parents=True, exist_ok=True)`: create every missing ancestor
directory; an existing directory is fine; a regular file in the way raises. -/
def ensureDirs (base : FilePath2) (comps : List Str) (fs : FS) :
    FS × Option MatErr :=
  match comps with
  | [] => (fs, none)
  | c :: rest =>
    match fs (base ++ [c]) with
    | some (.file _) => (fs, some .fileInTheWay)
    | some .dir => ensureDirs (base ++ [c]) rest fs
    | none => ensureDirs (base ++ [c]) rest (fsUpdate fs (base ++ [c]) .dir)

def mkdirStep (p : FilePath2) (fs : FS) : Outcome :=
  let r := ensureDirs [] p fs
  ⟨r.1, [], r.2⟩

/-- `Path.write_text`: unconditional overwrite. -/
def writeText (p : FilePath2) (content : Str) (fs : FS) : FS :=
  fsUpdate fs p (.file content)

/-- `media.download(dest)`: records the attempt; a `none` remote content is a
failed fetch (`MediaDownloadError`), otherwise the bytes are written. -/
def downloadStep (label : Str) (content : Option Str) (dest : FilePath2)
    (fs : FS) : Outcome :=
  match content with
  | none => ⟨fs, [.download label dest], some .mediaDownload⟩
  | some c => ⟨writeText dest c fs, [.download label dest], none⟩

/-- A realmoji reaction as used by `_save_realmojis`: its metadata fields,
the remote photo bytes, and the creation date that a dedicated request would
return. -/
structure Realmoji where
  username : Str
  type : Str
  id : Str
  url_id : Str
  photo : Option Str
  date : Str

/-- A feed item / post as consumed by `_save_post_common` and the feed loop:
metadata dict, the two photos, the optional behind-the-scenes video
(`none` = the existence flag is false, so a download would hard-fail), the
memory day used by the memories branches, and attached realmojis. -/
structure Item where
  memory_day : Str
  data_dict : Str
  primary_photo : Option Str
  secondary_photo : Option Str
  bts_video : Option Str
  realmojis : List Realmoji

def infoName : Str := "info.json".data
def primaryName : Str := "primary".data
def secondaryName : Str := "secondary".data
def btsName : Str := "bts".data
def realmojiName : Str := "realmoji".data

/-- `bf.bts_video` handling in `_save_post_common` (lines 110-112): query the
existence flag, and only when it is true attempt the download. -/
def btsStep (item : Item) (loc : FilePath2) (fs : FS) : Outcome :=
  if item.bts_video.isSome then
    let o := downloadStep btsName item.bts_video (loc ++ [btsName]) fs
    ⟨o.fs, .existsCheck btsName :: o.events, o.err⟩
  else
    ⟨fs, [.existsCheck btsName], none⟩

/-- `_save_post_common` (lines 100-112): create the directory, write
`info.json`, download primary and secondary unconditionally, then the
existence-guarded bts video. -/
def save_post_common (item : Item) (loc : FilePath2) (fs : FS) : Outcome :=
  bindO (mkdirStep loc fs) fun fs1 =>
    let fs2 := writeText (loc ++ [infoName]) item.data_dict fs1
    bindO (downloadStep primaryName item.primary_photo
        (loc ++ [primaryName]) fs2) fun fs3 =>
      bindO (downloadStep secondaryName item.secondary_photo
          (loc ++ [secondaryName]) fs3) fun fs4 =>
        btsStep item loc fs4

/-- Python `a or b` on optional strings (`None` and `""` are falsy), as in
line 98: `instant_realmoji_location = instant_realmoji_location or
realmoji_location`. -/
def pyOrStr (a b : Option Str) : Option Str :=
  match a with
  | none => b
  | some s => if s.isEmpty then b else some s

/-- Line 117: instant realmojis use the instant template, all others the
non-instant one. -/
def chosenTemplate (etype : Str) (rl il : Option Str) : Option Str :=
  if etype = "instant".data then il else rl

/-- Per-post context available to the formatting calls of the friends-v1
branch. -/
structure PostCtx where
  feed_id : Str
  notification_id : Str
  post_date : Str
  post_user : Str
  post_id : Str

/-- The nine concrete keyword arguments of the first `format` call in
`_save_realmojis` (lines 120-126), `date` excluded. -/
def realmojiFields (ctx : PostCtx) (em : Realmoji) : Str → Option Str :=
  fun k =>
    if k = "user".data then some em.username
    else if k = "type".data then some em.type
    else if k = "feed_id".data then some ctx.feed_id
    else if k = "notification_id".data then some ctx.notification_id
    else if k = "post_date".data then some ctx.post_date
    else if k = "post_user".data then some ctx.post_user
    else if k = "post_id".data then some ctx.post_id
    else if k = "emoji_id".data then some em.id
    else if k = "emoji_url_id".data then some em.url_id
    else none

/-- `BASE_DIR / s` with `BASE_DIR` the root: split the formatted location on
slashes into path components. -/
def splitSlashAux : Str → Str → List Str
  | [], acc => [acc.reverse]
  | c :: rest, acc =>
    if c = '/' then acc.reverse :: splitSlashAux rest []
    else splitSlashAux rest (c :: acc)

def parsePath (s : Str) : FilePath2 :=
  (splitSlashAux s []).filter fun seg => !seg.isEmpty

/-- One iteration of the `for emoji in post.realmojis` loop of
`_save_realmojis` (lines 115-136): select the template by realmoji type,
resolve it (with the lazy second pass for `date`), create the parent
directory, download the reaction photo. A `None` template crashes the
`format` call. -/
def save_realmoji (ctx : PostCtx) (em : Realmoji) (rl il : Option Str)
    (fs : FS) : Outcome :=
  match chosenTemplate em.type rl il with
  | none => ⟨fs, [], some .noneTemplate⟩
  | some tmpl =>
    match (formatRealmojiLocation tmpl (realmojiFields ctx em) em.date).path with
    | .error e => ⟨fs, [], some (.fmt e)⟩
    | .ok locStr =>
      let p := parsePath locStr
      bindO (mkdirStep p.dropLast fs) fun fs1 =>
        downloadStep realmojiName em.photo p fs1

/-- `_save_realmojis` (lines 114-136): the loop over the post's realmojis. -/
def save_realmojis (ctx : PostCtx) (ems : List Realmoji) (rl il : Option Str)
    (fs : FS) : Outcome :=
  match ems with
  | [] => ⟨fs, [], none⟩
  | em :: rest =>
    bindO (save_realmoji ctx em rl il fs) fun fs1 =>
      save_realmojis ctx rest rl il fs1

/-- `save_location.format(date=item.memory_day)` of the memories branch
(line 141). -/
def memFields (item : Item) : Str → Option Str :=
  fun k => if k = "date".data then some item.memory_day else none

/-- One iteration of the feed loop for `feed_id == "memories"`
(lines 138-142). -/
def stepMemoriesItem (tmpl : Str) (item : Item) (fs : FS) : Outcome :=
  match pyFormat (memFields item) tmpl with
  | .error e => ⟨fs, [], some (.fmt e)⟩
  | .ok s => save_post_common item (parsePath s) fs

/-- The `for item in feed` loop for the memories kind: each iteration runs
inside the same `for` body with no exception handler, so an exception
propagates and ends the traversal. -/
def feedMemories (tmpl : Str) : List Item → FS → Outcome
  | [], fs => ⟨fs, [], none⟩
  | item :: rest, fs =>
    bindO (stepMemoriesItem tmpl item fs) fun fs1 =>
      feedMemories tmpl rest fs1

/-- The keyword arguments of `save_location.format` in the friends-v1 branch
(lines 153-156). -/
def postSaveFields (ctx : PostCtx) : Str → Option Str :=
  fun k =>
    if k = "user".data then some ctx.post_user
    else if k = "date".data then some ctx.post_date
    else if k = "feed_id".data then some ctx.feed_id
    else if k = "post_id".data then some ctx.post_id
    else if k = "notification_id".data then some ctx.notification_id
    else none

/-- One `for post in item.posts` iteration of the friends-v1 branch
(lines 149-159): format the post save location, save the post's assets, then
its realmojis. -/
def stepFriendsV1Post (ctx : PostCtx) (post : Item) (saveTmpl : Str)
    (rl il : Option Str) (fs : FS) : Outcome :=
  match pyFormat (postSaveFields ctx) saveTmpl with
  | .error e => ⟨fs, [], some (.fmt e)⟩
  | .ok s =>
    bindO (save_post_common post (parsePath s) fs) fun fs1 =>
      save_realmojis ctx post.realmojis rl il fs1

/-! ## Feed dispatch (`feed`, lines 80-96) -/

/-- The feed getters of the `BeFake` client that `FEEDGETTER_MAP` refers
to. -/
inductive FeedGetter where
  | friendsv1
  | fof
  | memories
  | memoriesv1
deriving DecidableEq

/-- The `click.Choice` of the `feed` command's `feed_id` argument
(line 81). -/
def feedChoices : List Str :=
  ["friends".data, "friends-v1".data, "friends-of-friends".data,
   "discovery".data, "memories".data, "memories-v1".data]

/-- The dict literal of lines 90-95; a missing key is a `KeyError` at
line 96. -/
def FEEDGETTER_MAP (feed_id : Str) : Option FeedGetter :=
  if feed_id = "friends-v1".data then some .friendsv1
  else if feed_id = "friends-of-friends".data then some .fof
  else if feed_id = "memories".data then some .memories
  else if feed_id = "memories-v1".data then some .memoriesv1
  else none

/-! ## Filesystem lemmas -/

theorem fsUpdate_self (fs : FS) (p : FilePath2) (n : Node) :
    fsUpdate fs p n p = some n := by simp [fsUpdate]

theorem fsUpdate_ne (fs : FS) (p q : FilePath2) (n : Node) (h : q ≠ p) :
    fsUpdate fs p n q = fs q := by simp [fsUpdate, h]

/-- Paths no longer than the base are never touched by `ensureDirs`. -/
theorem ensureDirs_preserve_le (comps : List Str) :
    ∀ (base : FilePath2) (fs : FS) (q : FilePath2),
      q.length ≤ base.length → (ensureDirs base comps fs).1 q = fs q := by
  induction comps with
  | nil => intro base fs q _; rfl
  | cons c rest ih =>
    intro base fs q hq
    have hlen : q.length ≤ (base ++ [c]).length := by
      simp only [List.length_append, List.length_singleton]; omega
    have hne : q ≠ base ++ [c] := by
      intro h
      rw [h] at hq
      simp only [List.length_append, List.length_singleton] at hq
      omega
    unfold ensureDirs
    cases hfs : fs (base ++ [c]) with
    | none => rw [ih (base ++ [c]) _ q hlen, fsUpdate_ne _ _ _ _ hne]
    | some node =>
      cases node with
      | dir => rw [ih (base ++ [c]) _ q hlen]
      | file _ => rfl

/-- Paths longer than every directory `ensureDirs` can create are never
touched. -/
theorem ensureDirs_preserve_long (comps : List Str) :
    ∀ (base : FilePath2) (fs : FS) (q : FilePath2),
      base.length + comps.length < q.length →
      (ensureDirs base comps fs).1 q = fs q := by
  induction comps with
  | nil => intro base fs q _; rfl
  | cons c rest ih =>
    intro base fs q hq
    simp only [List.length_cons] at hq
    have hlen : (base ++ [c]).length + rest.length < q.length := by
      simp only [List.length_append, List.length_singleton]; omega
    have hne : q ≠ base ++ [c] := by
      intro h
      rw [h] at hq
      simp only [List.length_append, List.length_singleton] at hq
      omega
    unfold ensureDirs
    cases hfs : fs (base ++ [c]) with
    | none => rw [ih (base ++ [c]) _ q hlen, fsUpdate_ne _ _ _ _ hne]
    | some node =>
      cases node with
      | dir => rw [ih (base ++ [c]) _ q hlen]
      | file _ => rfl

/-- All the directories along `comps` below `base` exist. -/
def dirsOk : FS → FilePath2 → List Str → Prop
  | _, _, [] => True
  | fs, base, c :: rest =>
    fs (base ++ [c]) = some .dir ∧ dirsOk fs (base ++ [c]) rest

/-- `mkdir(parents=True, exist_ok=True)` on existing directories is a
no-op. -/
theorem ensureDirs_noop (comps : List Str) :
    ∀ (base : FilePath2) (fs : FS), dirsOk fs base comps →
      ensureDirs base comps fs = (fs, none) := by
  induction comps with
  | nil => intro base fs _; rfl
  | cons c rest ih =>
    intro base fs h
    obtain ⟨h1, h2⟩ := h
    unfold ensureDirs
    rw [h1]
    exact ih (base ++ [c]) fs h2

/-- A successful `ensureDirs` leaves all the requested directories in
place. -/
theorem ensureDirs_dirsOk (comps : List Str) :
    ∀ (base : FilePath2) (fs fs2 : FS),
      ensureDirs base comps fs = (fs2, none) → dirsOk fs2 base comps := by
  induction comps with
  | nil => intro base fs fs2 h; trivial
  | cons c rest ih =>
    intro base fs fs2 h
    unfold ensureDirs at h
    cases hfs : fs (base ++ [c]) with
    | none =>
      rw [hfs] at h
      dsimp only at h
      refine ⟨?_, ih (base ++ [c]) _ fs2 h⟩
      have := ensureDirs_preserve_le rest (base ++ [c])
        (fsUpdate fs (base ++ [c]) .dir) (base ++ [c]) (le_refl _)
      rw [h] at this
      simp only at this
      rw [this, fsUpdate_self]
    | some node =>
      cases node with
      | dir =>
        rw [hfs] at h
        dsimp only at h
        refine ⟨?_, ih (base ++ [c]) _ fs2 h⟩
        have := ensureDirs_preserve_le rest (base ++ [c]) fs
          (base ++ [c]) (le_refl _)
        rw [h] at this
        simp only at this
        rw [this, hfs]
      | file d =>
        rw [hfs] at h
        simp at h

/-- Updating a path longer than every directory along `comps` keeps those
directories intact. -/
theorem dirsOk_update (comps : List Str) :
    ∀ (base : FilePath2) (fs : FS) (p : FilePath2) (n : Node),
      dirsOk fs base comps → base.length + comps.length < p.length →
      dirsOk (fsUpdate fs p n) base comps := by
  induction comps with
  | nil => intro base fs p n h _; trivial
  | cons c rest ih =>
    intro base fs p n h hlen
    obtain ⟨h1, h2⟩ := h
    simp only [List.length_cons] at hlen
    have hne : base ++ [c] ≠ p := by
      intro hq
      have : (base ++ [c]).length = p.length := by rw [hq]
      simp only [List.length_append, List.length_singleton] at this
      omega
    refine ⟨by rw [fsUpdate_ne _ _ _ _ hne, h1], ?_⟩
    exact ih (base ++ [c]) fs p n h2
      (by simp only [List.length_append, List.length_singleton]; omega)

/-! ## Session manager (modelled from the spec) -/

/-- Modelled from the spec: the persisted session record (§3, §6). The
`BeFake` class holding it is not among the sources here. -/
structure Session where
  access_token : Str
  refresh_token : Str
  identity_id : Str
  expiry : Nat

/-- Result of a session load: the session (or `none` for
`AuthExpiredError`), and how many refresh and persist calls were made. -/
structure EnsureOut where
  result : Option Session
  refreshCalls : Nat
  persistCalls : Nat

/-- Modelled from the spec: `ensure_authenticated()` of the session manager
(§4.1), performed by `BeFake().load()` inside the `load_bf` decorator; the
`BeFake` class itself is not among the sources here. If the stored session's
expiry has passed, exactly one refresh is attempted (never retried): on
success the refreshed session with a full token lifetime is persisted and
returned, on failure the call fails. An unexpired session is returned with
no refresh. -/
def ensure_authenticated (now lifetime : Nat) (refreshOk : Bool)
    (s : Session) : EnsureOut :=
  if s.expiry ≤ now then
    if refreshOk then
      ⟨some { s with expiry := now + lifetime }, 1, 1⟩
    else
      ⟨none, 1, 0⟩
  else
    ⟨some s, 0, 0⟩

/-! ## Claim theorems -/

/-- C1: the `feed` command's `click.Choice` declares the six feed kinds, but
`FEEDGETTER_MAP` has no entry for `friends` or `discovery`, so those two
dispatch to a `KeyError` at line 96 instead of a feed getter, while the
other four kinds are handled. -/
theorem feedgetterMap_rejects_friends_and_discovery :
    "friends".data ∈ feedChoices ∧ FEEDGETTER_MAP "friends".data = none ∧
    "discovery".data ∈ feedChoices ∧
    FEEDGETTER_MAP "discovery".data = none ∧
    FEEDGETTER_MAP "friends-v1".data = some .friendsv1 ∧
    FEEDGETTER_MAP "friends-of-friends".data = some .fof ∧
    FEEDGETTER_MAP "memories".data = some .memories ∧
    FEEDGETTER_MAP "memories-v1".data = some .memoriesv1 := by
  refine ⟨?_, rfl, ?_, rfl, rfl, rfl, rfl, rfl⟩ <;> simp [feedChoices]

def memA : Item :=
  { memory_day := "2024-01-01".data, data_dict := "a".data,
    primary_photo := none, secondary_photo := some "s1".data,
    bts_video := none, realmojis := [] }

def memB : Item :=
  { memory_day := "2024-01-02".data, data_dict := "b".data,
    primary_photo := some "p2".data, secondary_photo := some "s2".data,
    bts_video := none, realmojis := [] }

def memTmpl : Str := "/mem/\x7bdate\x7d".data

/-- C2 counterexample: with two memories items of which the first has a
failing primary-photo download, the traversal ends with the
`MediaDownloadError`; the only download attempted is the first item's, and
nothing of the second item (dated 2024-01-02) is materialized — its
directory and sidecar do not exist. The remaining items of the feed are
NOT still processed. -/
theorem feedMemories_failure_aborts_siblings :
    (feedMemories memTmpl [memA, memB] emptyFS).err =
      some .mediaDownload ∧
    (feedMemories memTmpl [memA, memB] emptyFS).events =
      [.download primaryName ["mem".data, "2024-01-01".data, primaryName]] ∧
    (feedMemories memTmpl [memA, memB] emptyFS).fs
      ["mem".data, "2024-01-02".data, infoName] = none ∧
    (feedMemories memTmpl [memA, memB] emptyFS).fs
      ["mem".data, "2024-01-02".data] = none :=
  ⟨rfl, rfl, rfl, rfl⟩

/-- C2 amended: a failure while materializing one feed item aborts the
traversal — the loop body has no exception handler, so the exception
propagates and the items after the failing one are not processed (the
traversal's outcome is that of the failing step, independent of the
remaining items). -/
theorem feedMemories_aborts_on_item_failure
    (tmpl : Str) (item : Item) (rest : List Item) (fs : FS) (e : MatErr)
    (h : (stepMemoriesItem tmpl item fs).err = some e) :
    feedMemories tmpl (item :: rest) fs =
      ⟨(stepMemoriesItem tmpl item fs).fs,
        (stepMemoriesItem tmpl item fs).events, some e⟩ := by
  rcases ho : stepMemoriesItem tmpl item fs with ⟨fs1, evs, err⟩
  rw [ho] at h
  simp only at h
  subst h
  simp [feedMemories, bindO, ho]

/-- Witness for the C2 amended claim at a concrete failing first item. -/
theorem feedMemories_aborts_on_item_failure_witness :
    feedMemories memTmpl [memA, memB] emptyFS =
      ⟨(stepMemoriesItem memTmpl memA emptyFS).fs,
        (stepMemoriesItem memTmpl memA emptyFS).events,
        some .mediaDownload⟩ :=
  feedMemories_aborts_on_item_failure memTmpl memA [memB] emptyFS
    .mediaDownload rfl

/-- C4: if the literal text `\x7bdate\x7d` does not occur in the partially
substituted template, the second formatting pass — and with it the extra
network request fetching the realmoji's creation date — is not made:
`dateCalls = 0` and the first-pass result is the final path. -/
theorem formatRealmojiLocation_no_date_no_fetch
    (tmpl : Str) (f : Str → Option Str) (d : Str) (s1 : Str)
    (h1 : pyFormat (fun k => if k = dateKey then some dateTag else f k) tmpl
      = .ok s1)
    (h2 : substrIn dateTag s1 = false) :
    (formatRealmojiLocation tmpl f d).dateCalls = 0 ∧
    (formatRealmojiLocation tmpl f d).path = .ok s1 := by
  simp [formatRealmojiLocation, h1, h2]

/-- Witness for C4: a template mentioning only `user` resolves without any
date fetch. -/
theorem formatRealmojiLocation_no_date_no_fetch_witness :
    (formatRealmojiLocation "\x7buser\x7d".data
      (fun k => if k = "user".data then some "alice".data else none)
      "2024-01-01".data).dateCalls = 0 ∧
    (formatRealmojiLocation "\x7buser\x7d".data
      (fun k => if k = "user".data then some "alice".data else none)
      "2024-01-01".data).path = .ok "alice".data :=
  formatRealmojiLocation_no_date_no_fetch _ _ _ "alice".data rfl rfl

/-- C9: one `ensure_authenticated` call attempts at most one refresh, and
calling it again on the session the first call returned (no external
invalidation, positive token lifetime) performs no further refresh, so two
successive calls refresh at most once in total. -/
theorem ensure_authenticated_refresh_once
    (now lifetime : Nat) (refreshOk : Bool) (s : Session)
    (hl : 0 < lifetime) :
    (ensure_authenticated now lifetime refreshOk s).refreshCalls ≤ 1 ∧
    (∀ s2,
      (ensure_authenticated now lifetime refreshOk s).result = some s2 →
      (ensure_authenticated now lifetime refreshOk s).refreshCalls
        + (ensure_authenticated now lifetime refreshOk s2).refreshCalls
        ≤ 1) := by
  unfold ensure_authenticated
  by_cases hexp : s.expiry ≤ now
  · cases refreshOk with
    | false => simp [hexp]
    | true =>
      simp only [hexp, if_true, if_pos]
      refine ⟨by omega, ?_⟩
      intro s2 h2
      simp only [Option.some_inj] at h2
      subst h2
      simp only
      have : ¬ (now + lifetime ≤ now) := by omega
      simp [this]
  · simp only [hexp, if_false, if_neg hexp]
    refine ⟨by omega, ?_⟩
    intro s2 h2
    simp only [Option.some_inj] at h2
    subst h2
    simp [hexp]

/-- Witness for C9 at a concrete expired session. -/
theorem ensure_authenticated_refresh_once_witness :
    (ensure_authenticated 10 5 true
      ⟨"a".data, "r".data, "i".data, 3⟩).refreshCalls ≤ 1 ∧
    (∀ s2,
      (ensure_authenticated 10 5 true
        ⟨"a".data, "r".data, "i".data, 3⟩).result = some s2 →
      (ensure_authenticated 10 5 true
        ⟨"a".data, "r".data, "i".data, 3⟩).refreshCalls
        + (ensure_authenticated 10 5 true s2).refreshCalls ≤ 1) :=
  ensure_authenticated_refresh_once 10 5 true _ (by decide)

/-- C10: when the instant-realmoji template option is not supplied, the
Python `or` at line 98 makes the non-instant realmoji template the instant
one, so every realmoji — instant or not — is saved with the non-instant
template; and the per-realmoji template selection at line 117 depends only
on whether the realmoji's type equals `instant`. -/
theorem instant_template_fallback :
    (∀ (rl etype : Str),
      chosenTemplate etype (some rl) (pyOrStr none (some rl)) = some rl) ∧
    (∀ (t1 t2 : Str) (rl il : Option Str),
      (t1 = "instant".data ↔ t2 = "instant".data) →
      chosenTemplate t1 rl il = chosenTemplate t2 rl il) ∧
    (∀ ctx em (rl : Str) fs,
      save_realmoji ctx em (some rl) (pyOrStr none (some rl)) fs
        = save_realmoji ctx em (some rl) (some rl) fs) := by
  refine ⟨?_, ?_, ?_⟩
  · intro rl etype
    by_cases h : etype = "instant".data <;> simp [chosenTemplate, pyOrStr, h]
  · intro t1 t2 rl il hiff
    by_cases h : t1 = "instant".data
    · simp [chosenTemplate, h, hiff.mp h]
    · have h2 : ¬ t2 = "instant".data := fun hh => h (hiff.mpr hh)
      simp [chosenTemplate, h, h2]
  · intro ctx em rl fs
    rfl

/-- Witness for C10: selection agreement at two concrete non-instant
types. -/
theorem instant_template_fallback_witness :
    chosenTemplate "up".data (some "r".data) (some "i".data)
      = chosenTemplate "heart".data (some "r".data) (some "i".data) :=
  instant_template_fallback.2.1 "up".data "heart".data
    (some "r".data) (some "i".data) (by simp)

def isBtsDownload : Ev → Bool
  | .download l _ => l = btsName
  | _ => false

def isBtsEvent : Ev → Bool
  | .download l _ => l = btsName
  | .existsCheck l => l = btsName

/-- C6: when the bts existence flag is false, `_save_post_common` makes zero
download attempts for the bts asset and leaves no `bts` file (the path is
untouched); and in every run the first bts-related event, if any, is the
existence check — the download of a non-existent video is never reached. -/
theorem save_post_common_bts_guard (item : Item) (loc : FilePath2)
    (fs : FS) :
    (item.bts_video = none →
      (save_post_common item loc fs).events.filter isBtsDownload = [] ∧
      (save_post_common item loc fs).fs (loc ++ [btsName])
        = fs (loc ++ [btsName])) ∧
    ((save_post_common item loc fs).events.filter isBtsEvent = [] ∨
      (save_post_common item loc fs).events.filter isBtsEvent
        = [.existsCheck btsName] ∨
      (save_post_common item loc fs).events.filter isBtsEvent
        = [.existsCheck btsName, .download btsName (loc ++ [btsName])]) := by
  rcases hmk : ensureDirs [] loc fs with ⟨fsA, errA⟩
  have hA : ∀ q : FilePath2, loc.length < q.length → fsA q = fs q := by
    intro q hq
    have := ensureDirs_preserve_long loc [] fs q (by simpa using hq)
    rw [hmk] at this
    exact this
  have hbts : fsA (loc ++ [btsName]) = fs (loc ++ [btsName]) :=
    hA _ (by simp)
  cases errA with
  | some e =>
    simp only [save_post_common, mkdirStep, hmk, bindO]
    exact ⟨fun _ => ⟨rfl, hbts⟩, Or.inl rfl⟩
  | none =>
    cases hp : item.primary_photo with
    | none =>
      simp only [save_post_common, mkdirStep, hmk, bindO, downloadStep, hp]
      refine ⟨fun _ => ⟨?_, ?_⟩, Or.inl ?_⟩
      · simp [isBtsDownload, primaryName, btsName]
      · simp only [writeText]
        rw [fsUpdate_ne _ _ _ _ (by simp [infoName, btsName])]
        exact hbts
      · simp [isBtsEvent, primaryName, btsName]
    | some p =>
      cases hs : item.secondary_photo with
      | none =>
        simp only [save_post_common, mkdirStep, hmk, bindO, downloadStep,
          hp, hs]
        refine ⟨fun _ => ⟨?_, ?_⟩, Or.inl ?_⟩
        · simp [isBtsDownload, primaryName, secondaryName, btsName]
        · simp only [writeText]
          rw [fsUpdate_ne _ _ _ _ (by simp [primaryName, btsName]),
            fsUpdate_ne _ _ _ _ (by simp [infoName, btsName])]
          exact hbts
        · simp [isBtsEvent, primaryName, secondaryName, btsName]
      | some s =>
        cases hb : item.bts_video with
        | none =>
          simp only [save_post_common, mkdirStep, hmk, bindO, downloadStep,
            btsStep, hp, hs, hb, Option.isSome_none, Bool.false_eq_true,
            if_false]
          refine ⟨fun _ => ⟨?_, ?_⟩, Or.inr (Or.inl ?_)⟩
          · simp [isBtsDownload, primaryName, secondaryName, btsName]
          · simp only [writeText]
            rw [fsUpdate_ne _ _ _ _ (by simp [secondaryName, btsName]),
              fsUpdate_ne _ _ _ _ (by simp [primaryName, btsName]),
              fsUpdate_ne _ _ _ _ (by simp [infoName, btsName])]
            exact hbts
          · simp [isBtsEvent, primaryName, secondaryName, btsName]
        | some b =>
          simp only [save_post_common, mkdirStep, hmk, bindO, downloadStep,
            btsStep, hp, hs, hb, Option.isSome_some, if_true]
          refine ⟨fun hnone => ?_, Or.inr (Or.inr ?_)⟩
          · simp at hnone
          · simp [isBtsEvent, primaryName, secondaryName, btsName]

/-- Witness for C6 at a concrete item with a false bts flag. -/
theorem save_post_common_bts_guard_witness :
    (save_post_common memB ["m".data] emptyFS).events.filter isBtsDownload
      = [] ∧
    (save_post_common memB ["m".data] emptyFS).fs
      (["m".data] ++ [btsName]) = emptyFS (["m".data] ++ [btsName]) :=
  (save_post_common_bts_guard memB ["m".data] emptyFS).1 rfl

/-- C7: if materializing an item into a directory succeeded, re-running the
same materialization succeeds as well (directory creation is idempotent) and
the sidecar `info.json` after the second run is identical to the one after
the first — both are the unconditional overwrite with the item's metadata. -/
theorem save_post_common_idempotent (item : Item) (loc : FilePath2) (fs : FS)
    (h : (save_post_common item loc fs).err = none) :
    (save_post_common item loc ((save_post_common item loc fs).fs)).err
      = none ∧
    (save_post_common item loc ((save_post_common item loc fs).fs)).fs
        (loc ++ [infoName])
      = (save_post_common item loc fs).fs (loc ++ [infoName]) ∧
    (save_post_common item loc fs).fs (loc ++ [infoName])
      = some (.file item.data_dict) := by
  rcases hmk : ensureDirs [] loc fs with ⟨fsA, errA⟩
  cases errA with
  | some e =>
    exfalso
    simp [save_post_common, mkdirStep, hmk, bindO] at h
  | none =>
  cases hp : item.primary_photo with
  | none =>
    exfalso
    simp [save_post_common, mkdirStep, hmk, bindO, downloadStep, hp] at h
  | some p =>
  cases hs : item.secondary_photo with
  | none =>
    exfalso
    simp [save_post_common, mkdirStep, hmk, bindO, downloadStep, hp, hs] at h
  | some s =>
  have hdA : dirsOk fsA [] loc := ensureDirs_dirsOk loc [] fs fsA (by rw [hmk])
  have hlen1 : ([] : FilePath2).length + loc.length
      < (loc ++ [infoName]).length := by simp
  have hlen2 : ([] : FilePath2).length + loc.length
      < (loc ++ [primaryName]).length := by simp
  have hlen3 : ([] : FilePath2).length + loc.length
      < (loc ++ [secondaryName]).length := by simp
  have hlen4 : ([] : FilePath2).length + loc.length
      < (loc ++ [btsName]).length := by simp
  cases hb : item.bts_video with
  | none =>
    have hrun1 : save_post_common item loc fs =
        ⟨fsUpdate (fsUpdate (fsUpdate fsA (loc ++ [infoName])
            (.file item.data_dict)) (loc ++ [primaryName]) (.file p))
            (loc ++ [secondaryName]) (.file s),
          [.download primaryName (loc ++ [primaryName]),
            .download secondaryName (loc ++ [secondaryName]),
            .existsCheck btsName], none⟩ := by
      simp [save_post_common, mkdirStep, hmk, bindO, downloadStep, btsStep,
        writeText, hp, hs, hb]
    have hdF : dirsOk (fsUpdate (fsUpdate (fsUpdate fsA (loc ++ [infoName])
        (.file item.data_dict)) (loc ++ [primaryName]) (.file p))
        (loc ++ [secondaryName]) (.file s)) [] loc :=
      dirsOk_update loc [] _ _ _
        (dirsOk_update loc [] _ _ _
          (dirsOk_update loc [] _ _ _ hdA hlen1) hlen2) hlen3
    have hmk2 := ensureDirs_noop loc [] _ hdF
    rw [hrun1]
    simp only [save_post_common, mkdirStep, hmk2, bindO, downloadStep,
      btsStep, writeText, hp, hs, hb, Option.isSome_none,
      Bool.false_eq_true, if_false]
    refine ⟨trivial, ?_, ?_⟩ <;>
      simp [fsUpdate, infoName, primaryName, secondaryName]
  | some b =>
    have hrun1 : save_post_common item loc fs =
        ⟨fsUpdate (fsUpdate (fsUpdate (fsUpdate fsA (loc ++ [infoName])
            (.file item.data_dict)) (loc ++ [primaryName]) (.file p))
            (loc ++ [secondaryName]) (.file s)) (loc ++ [btsName])
            (.file b),
          [.download primaryName (loc ++ [primaryName]),
            .download secondaryName (loc ++ [secondaryName]),
            .existsCheck btsName,
            .download btsName (loc ++ [btsName])], none⟩ := by
      simp [save_post_common, mkdirStep, hmk, bindO, downloadStep, btsStep,
        writeText, hp, hs, hb]
    have hdF : dirsOk (fsUpdate (fsUpdate (fsUpdate (fsUpdate fsA
        (loc ++ [infoName]) (.file item.data_dict)) (loc ++ [primaryName])
        (.file p)) (loc ++ [secondaryName]) (.file s)) (loc ++ [btsName])
        (.file b)) [] loc :=
      dirsOk_update loc [] _ _ _
        (dirsOk_update loc [] _ _ _
          (dirsOk_update loc [] _ _ _
            (dirsOk_update loc [] _ _ _ hdA hlen1) hlen2) hlen3) hlen4
    have hmk2 := ensureDirs_noop loc [] _ hdF
    rw [hrun1]
    simp only [save_post_common, mkdirStep, hmk2, bindO, downloadStep,
      btsStep, writeText, hp, hs, hb, Option.isSome_some, if_true]
    refine ⟨trivial, ?_, ?_⟩ <;>
      simp [fsUpdate, infoName, primaryName, secondaryName, btsName]

/-- Witness for C7 at a concrete successful materialization. -/
theorem save_post_common_idempotent_witness :
    (save_post_common memB ["m".data]
        ((save_post_common memB ["m".data] emptyFS).fs)).err = none ∧
    (save_post_common memB ["m".data]
        ((save_post_common memB ["m".data] emptyFS).fs)).fs
        (["m".data] ++ [infoName])
      = (save_post_common memB ["m".data] emptyFS).fs
        (["m".data] ++ [infoName]) ∧
    (save_post_common memB ["m".data] emptyFS).fs (["m".data] ++ [infoName])
      = some (.file memB.data_dict) :=
  save_post_common_idempotent memB ["m".data] emptyFS rfl

/-- Substitution of every placeholder a field map supplies. -/
def substToks (f2 : Str → Option Str) : Tok → Tok
  | .lit l => .lit l
  | .ph k =>
    match f2 k with
    | some v => .lit v
    | none => .ph k

theorem formatToks_known (f2 : Str → Option Str) (ts : List Tok)
    (h : ∀ k, .ph k ∈ ts → (f2 k).isSome) :
    formatToks f2 ts = .ok (render (ts.map (substToks f2))) := by
  induction ts with
  | nil => simp [formatToks, render]
  | cons t ts ih =>
    have hts : ∀ k, .ph k ∈ ts → (f2 k).isSome := fun k hk =>
      h k (by simp [hk])
    cases t with
    | lit l => simp [formatToks, ih hts, Except.map, render, substToks]
    | ph k =>
      have := h k (by simp)
      cases hf : f2 k with
      | none => rw [hf] at this; cases this
      | some v =>
        simp [formatToks, hf, ih hts, Except.map, render, substToks]

theorem wfToks_sub1 (dk : Str) (f : Str → Option Str) (ts : List Tok)
    (hwf : wfToks ts = true)
    (hvals : ∀ k v, f k = some v → braceFreeB v = true) :
    wfToks (ts.map (sub1 dk f)) = true := by
  induction ts with
  | nil => rfl
  | cons t ts ih =>
    simp only [wfToks, List.all_cons, Bool.and_eq_true] at hwf
    obtain ⟨ht, hts⟩ := hwf
    have ihz := ih hts
    simp only [List.map_cons, wfToks, List.all_cons, Bool.and_eq_true]
    refine ⟨?_, ihz⟩
    cases t with
    | lit l => exact ht
    | ph k =>
      by_cases hk : k = dk
      · have hsub : sub1 dk f (.ph k) = .ph k := by simp [sub1, hk]
        rw [hsub]
        exact ht
      · cases hf : f k with
        | none => simp only [sub1, hk, if_false, hf]; exact ht
        | some v =>
          simp only [sub1, hk, if_false, hf]
          exact hvals k v hf

theorem substToks_sub1 (dk : Str) (f : Str → Option Str) (d : Str)
    (t : Tok) :
    substToks (fun k => if k = dk then some d else none) (sub1 dk f t)
      = subFull dk f d t := by
  cases t with
  | lit l => rfl
  | ph k =>
    by_cases hk : k = dk
    · subst hk; simp [sub1, substToks, subFull]
    · cases hf : f k with
      | none => simp [sub1, substToks, subFull, hk, hf]
      | some v => simp [sub1, substToks, subFull, hk, hf]

theorem render_contains_dateTag (ts2 : List Tok)
    (h : .ph dateKey ∈ ts2) :
    substrIn dateTag (render ts2) = true := by
  obtain ⟨a, b, hab⟩ := render_mem_decomp _ ts2 h
  rw [hab]
  have hone : render [Tok.ph dateKey] = dateTag := rfl
  rw [hone]
  exact substrIn_mid dateTag a b

/-- C5: if the template references `date`, the creation-date provider is
invoked exactly once (`dateCalls = 1`) no matter how many times the
placeholder occurs, and the resolved path is the template with every
placeholder occurrence — `date` included — replaced by its value. -/
theorem formatRealmojiLocation_date_once
    (ts : List Tok) (f : Str → Option Str) (d : Str)
    (hwf : wfToks ts = true)
    (hknown : ∀ k, .ph k ∈ ts → k ≠ dateKey → (f k).isSome)
    (hvals : ∀ k v, f k = some v → braceFreeB v = true)
    (hmem : .ph dateKey ∈ ts) :
    (formatRealmojiLocation (render ts) f d).dateCalls = 1 ∧
    (formatRealmojiLocation (render ts) f d).path
      = .ok (render (ts.map (subFull dateKey f d))) := by
  have h1a : pyFormat (fun k => if k = dateKey then some dateTag else f k)
      (render ts)
      = formatToks (fun k => if k = dateKey then some dateTag else f k) ts :=
    pyFormat_render _ ts hwf
  have h1b : formatToks
      (fun k => if k = dateKey then some dateTag else f k) ts
      = .ok (render (ts.map (sub1 dateKey f))) := by
    have := formatToks_sub1 dateKey f ts hknown
    simpa [dateTag] using this
  have hs1 : substrIn dateTag (render (ts.map (sub1 dateKey f))) = true := by
    apply render_contains_dateTag
    have heq : sub1 dateKey f (.ph dateKey) = .ph dateKey := by simp [sub1]
    exact heq ▸ List.mem_map_of_mem _ hmem
  have hwf2 : wfToks (ts.map (sub1 dateKey f)) = true :=
    wfToks_sub1 dateKey f ts hwf hvals
  have h2a : pyFormat (fun k => if k = dateKey then some d else none)
      (render (ts.map (sub1 dateKey f)))
      = formatToks (fun k => if k = dateKey then some d else none)
        (ts.map (sub1 dateKey f)) :=
    pyFormat_render _ _ hwf2
  have hknown2 : ∀ k, Tok.ph k ∈ ts.map (sub1 dateKey f) →
      ((fun k => if k = dateKey then some d else none) k).isSome := by
    intro k hk
    rw [List.mem_map] at hk
    obtain ⟨t, ht, hts⟩ := hk
    cases t with
    | lit l => simp [sub1] at hts
    | ph k0 =>
      by_cases hk0 : k0 = dateKey
      · subst hk0
        simp only [sub1, if_true] at hts
        rw [Tok.ph.injEq] at hts
        subst hts
        simp
      · cases hf : f k0 with
        | none => exact absurd (hknown k0 ht hk0) (by simp [hf])
        | some v => simp [sub1, hk0, hf] at hts
  have h2b := formatToks_known _ _ hknown2
  have hcomp : (ts.map (sub1 dateKey f)).map
      (substToks (fun k => if k = dateKey then some d else none))
      = ts.map (subFull dateKey f d) := by
    rw [List.map_map]
    have hfun : (substToks (fun k => if k = dateKey then some d else none))
        ∘ (sub1 dateKey f) = subFull dateKey f d :=
      funext (substToks_sub1 dateKey f d)
    rw [hfun]
  rw [hcomp] at h2b
  constructor
  · simp [formatRealmojiLocation, h1a, h1b, hs1]
  · simp [formatRealmojiLocation, h1a, h1b, hs1, h2a, h2b]

def ts5 : List Tok := [.ph "user".data, .lit "/".data, .ph dateKey]

def f5 : Str → Option Str :=
  fun k => if k = "user".data then some "alice".data else none

/-- Witness for C5: the spec's scenario, resolving `\x7buser\x7d/\x7bdate\x7d`
with user `alice` and a provider returning `2024-01-01`. -/
theorem formatRealmojiLocation_date_once_witness :
    (formatRealmojiLocation (render ts5) f5 "2024-01-01".data).dateCalls
      = 1 ∧
    (formatRealmojiLocation (render ts5) f5 "2024-01-01".data).path
      = .ok "alice/2024-01-01".data := by
  have hknown : ∀ k, Tok.ph k ∈ ts5 → k ≠ dateKey → (f5 k).isSome := by
    intro k hk hne
    simp only [ts5] at hk
    rcases List.mem_cons.mp hk with h | hk2
    · rw [Tok.ph.injEq] at h
      subst h
      simp [f5]
    rcases List.mem_cons.mp hk2 with h | hk3
    · exact Tok.noConfusion h
    rcases List.mem_cons.mp hk3 with h | hk4
    · rw [Tok.ph.injEq] at h
      exact absurd h hne
    · exact absurd hk4 (List.not_mem_nil _)
  have hvals : ∀ k v, f5 k = some v → braceFreeB v = true := by
    intro k v hv
    by_cases hk : k = "user".data
    · rw [f5, if_pos hk, Option.some_inj] at hv
      rw [← hv]
      decide
    · rw [f5, if_neg hk] at hv
      cases hv
  have h := formatRealmojiLocation_date_once ts5 f5 "2024-01-01".data
    (by decide) hknown hvals (by decide)
  refine ⟨h.1, h.2.trans ?_⟩
  rfl

def ctx0 : PostCtx :=
  { feed_id := "friends-v1".data, notification_id := "n1".data,
    post_date := "2024-01-01_10-00-00".data, post_user := "bob".data,
    post_id := "p1".data }

def em0 : Realmoji :=
  { username := "carol".data, type := "wink".data, id := "e1".data,
    url_id := "u1".data, photo := some "img".data,
    date := "2024-01-02_11-00-00".data }

/-- C3: a template placeholder whose name is not among the supplied fields
makes the `format` call raise `KeyError` before any media download: both for
a realmoji location template inside `_save_realmojis` and for the post
save-location template of the friends-v1 branch, the step fails with the
unknown-key error and its event trace contains no download at all. -/
theorem unknown_placeholder_fails_before_download :
    (∀ ctx (em : Realmoji) rl il (ts : List Tok) (k : Str) (fs : FS),
      chosenTemplate em.type rl il = some (render ts) →
      wfToks ts = true →
      .ph k ∈ ts →
      k ≠ dateKey →
      realmojiFields ctx em k = none →
      (∃ k2, (save_realmoji ctx em rl il fs).err
        = some (.fmt (.unknownKey k2))) ∧
      (save_realmoji ctx em rl il fs).events = []) ∧
    (∀ ctx (post : Item) (ts : List Tok) (k : Str) rl il (fs : FS),
      wfToks ts = true →
      .ph k ∈ ts →
      postSaveFields ctx k = none →
      (∃ k2, (stepFriendsV1Post ctx post (render ts) rl il fs).err
        = some (.fmt (.unknownKey k2))) ∧
      (stepFriendsV1Post ctx post (render ts) rl il fs).events = []) := by
  constructor
  · intro ctx em rl il ts k fs hct hwf hmem hkd hnone
    have h1a := pyFormat_render
      (fun q => if q = dateKey then some dateTag
        else realmojiFields ctx em q) ts hwf
    obtain ⟨k2, hk2, hnone2⟩ := formatToks_unknown
      (fun q => if q = dateKey then some dateTag
        else realmojiFields ctx em q) ts
      ⟨k, hmem, by simp [hkd, hnone]⟩
    have hloc : formatRealmojiLocation (render ts) (realmojiFields ctx em)
        em.date = ⟨.error (.unknownKey k2), 0⟩ := by
      simp only [formatRealmojiLocation, h1a, hk2]
    simp only [save_realmoji, hct, hloc]
    exact ⟨⟨k2, rfl⟩, trivial⟩
  · intro ctx post ts k rl il fs hwf hmem hnone
    have h1a := pyFormat_render (postSaveFields ctx) ts hwf
    obtain ⟨k2, hk2, hnone2⟩ := formatToks_unknown (postSaveFields ctx) ts
      ⟨k, hmem, hnone⟩
    simp only [stepFriendsV1Post, h1a, hk2]
    exact ⟨⟨k2, rfl⟩, trivial⟩

def ts3 : List Tok := [.ph "usr".data]

/-- Witness for C3: a realmoji template with the misspelled placeholder
`usr` fails with a `KeyError` and downloads nothing. -/
theorem unknown_placeholder_fails_before_download_witness :
    (∃ k2, (save_realmoji ctx0 em0 (some (render ts3)) none emptyFS).err
      = some (.fmt (.unknownKey k2))) ∧
    (save_realmoji ctx0 em0 (some (render ts3)) none emptyFS).events
      = [] :=
  unknown_placeholder_fails_before_download.1 ctx0 em0
    (some (render ts3)) none ts3 "usr".data emptyFS rfl (by decide)
    (by decide) (by decide) rfl

def memC : Item :=
  { memory_day := "2024-01-01".data, data_dict := "c".data,
    primary_photo := some "p1".data, secondary_photo := some "s1".data,
    bts_video := none, realmojis := [] }

/-- C8: the memories feed with two items dated 2024-01-01 and 2024-01-02
and template `/mem/\x7bdate\x7d` succeeds and produces the two directories,
each holding the sidecar `info.json` and the two unconditionally downloaded
image files (and no bts file, the flag being false). -/
theorem memories_scenario_two_items :
    (feedMemories memTmpl [memC, memB] emptyFS).err = none ∧
    (feedMemories memTmpl [memC, memB] emptyFS).fs
      ["mem".data, "2024-01-01".data] = some .dir ∧
    (feedMemories memTmpl [memC, memB] emptyFS).fs
      ["mem".data, "2024-01-01".data, infoName]
      = some (.file "c".data) ∧
    (feedMemories memTmpl [memC, memB] emptyFS).fs
      ["mem".data, "2024-01-01".data, primaryName]
      = some (.file "p1".data) ∧
    (feedMemories memTmpl [memC, memB] emptyFS).fs
      ["mem".data, "2024-01-01".data, secondaryName]
      = some (.file "s1".data) ∧
    (feedMemories memTmpl [memC, memB] emptyFS).fs
      ["mem".data, "2024-01-01".data, btsName] = none ∧
    (feedMemories memTmpl [memC, memB] emptyFS).fs
      ["mem".data, "2024-01-02".data] = some .dir ∧
    (feedMemories memTmpl [memC, memB] emptyFS).fs
      ["mem".data, "2024-01-02".data, infoName]
      = some (.file "b".data) ∧
    (feedMemories memTmpl [memC, memB] emptyFS).fs
      ["mem".data, "2024-01-02".data, primaryName]
      = some (.file "p2".data) ∧
    (feedMemories memTmpl [memC, memB] emptyFS).fs
      ["mem".data, "2024-01-02".data, secondaryName]
      = some (.file "s2".data) ∧
    (feedMemories memTmpl [memC, memB] emptyFS).fs
      ["mem".data, "2024-01-02".data, btsName] = none :=
  ⟨rfl, rfl, rfl, rfl, rfl, rfl, rfl, rfl, rfl, rfl, rfl⟩

end BeFakeSpec
